import Mathlib

/-!
Shallow embedding of the iframe-finder library (src/index.ts).

The DOM is modelled as a tree of documents: a document holds its
(non-iframe) elements, in document order, and its direct iframe elements,
in document order.  Each iframe carries its attribute data (id, name) and
a content slot that is either an accessible nested document, absent
(`contentDocument` is null: not yet loaded / no src), or cross-origin
(reading `contentDocument` throws; the library catches it).

CSS-selector matching is modelled abstractly: each element records the set
of selectors it matches, and `querySelectorAll` filters the document's
elements in order.  The `maxDepth` option is a JS number defaulting to
`Infinity`; it is modelled as `Depth`: either a finite integer (any
integer, so negative bounds are representable) or infinity.
-/

namespace IframeFinder

/-- A non-iframe DOM element: a label, and the selectors it matches. -/
structure Elem where
  tag : String
  sels : List String
deriving DecidableEq

/-- Attribute data of an iframe element (`id` and `name` attributes). -/
structure IframeData where
  id : String
  name : String
deriving DecidableEq

mutual

/-- A document: its elements and direct iframes, each in document order. -/
inductive Doc : Type where
  | mk : List Elem → List Iframe → Doc

/-- An iframe element: attribute data plus its content slot. -/
inductive Iframe : Type where
  | mk : IframeData → Content → Iframe

/-- Outcome of reading `iframe.contentDocument`: an accessible nested
document, null (absent), or a cross-origin access violation (throws). -/
inductive Content : Type where
  | accessible : Doc → Content
  | absent : Content
  | crossOrigin : Content

end

/-- The elements of a document, in document order. -/
def Doc.elems : Doc → List Elem
  | .mk es _ => es

/-- The direct iframes of a document: `doc.querySelectorAll('iframe')`. -/
def Doc.iframes : Doc → List Iframe
  | .mk _ l => l

/-- The attribute data of an iframe. -/
def Iframe.data : Iframe → IframeData
  | .mk d _ => d

/-- The content slot of an iframe. -/
def Iframe.content : Iframe → Content
  | .mk _ c => c

/-- Whether element `e` matches selector `sel`. -/
def elemMatches (sel : String) (e : Elem) : Bool :=
  e.sels.contains sel

/-- `doc.querySelectorAll(sel)`: all matching elements in document order. -/
def querySelectorAll (doc : Doc) (sel : String) : List Elem :=
  doc.elems.filter (elemMatches sel)

/-- `doc.querySelector(sel)`: the first matching element, if any. -/
def querySelector (doc : Doc) (sel : String) : Option Elem :=
  doc.elems.find? (elemMatches sel)

/-- The `maxDepth` option: a finite (possibly negative) integer bound, or
`Infinity` (the default, meaning unbounded). -/
inductive Depth : Type where
  | finite : Int → Depth
  | infinity : Depth
deriving DecidableEq

/-- The depth guard `currentDepth > maxDepth` of the recursive helpers. -/
def depthExceeds (currentDepth : Nat) (maxDepth : Depth) : Bool :=
  match maxDepth with
  | .infinity => false
  | .finite m => (currentDepth : Int) > m

/-- The error-isolated descent step: `try { const d = iframe.contentDocument;
if (!d) continue; ... } catch { continue }` condensed to an `Option`:
`some` exactly when the nested document is accessible. -/
def descend (iframe : Iframe) : Option Doc :=
  match iframe.content with
  | .accessible d => some d
  | .absent => none
  | .crossOrigin => none

/-- The first `for` loop of `findIframeRecursive`: return the first iframe
satisfying the predicate, short-circuiting. -/
def firstPassLoop (predicate : Iframe → Bool) : List Iframe → Option Iframe
  | [] => none
  | iframe :: rest => if predicate iframe then some iframe else firstPassLoop predicate rest

mutual

/-- `findIframeRecursive` from src/index.ts: depth guard, then pass 1
(first direct iframe satisfying the predicate), then pass 2 (recurse into
each accessible nested document in order, first hit wins). -/
def findIframeRecursive (predicate : Iframe → Bool) (doc : Doc)
    (currentDepth : Nat) (maxDepth : Depth) : Option Iframe :=
  if depthExceeds currentDepth maxDepth then none
  else
    match doc with
    | .mk _ iframes =>
      match firstPassLoop predicate iframes with
      | some iframe => some iframe
      | none => secondPassLoop predicate iframes currentDepth maxDepth

/-- The second `for` loop of `findIframeRecursive`: for each iframe, try to
obtain its nested document (null and cross-origin both skip), recurse with
depth + 1, and return the first non-null recursive result. -/
def secondPassLoop (predicate : Iframe → Bool) (l : List Iframe)
    (currentDepth : Nat) (maxDepth : Depth) : Option Iframe :=
  match l with
  | [] => none
  | .mk _ (.accessible contentDoc) :: rest =>
    match findIframeRecursive predicate contentDoc (currentDepth + 1) maxDepth with
    | some found => some found
    | none => secondPassLoop predicate rest currentDepth maxDepth
  | .mk _ .absent :: rest => secondPassLoop predicate rest currentDepth maxDepth
  | .mk _ .crossOrigin :: rest => secondPassLoop predicate rest currentDepth maxDepth

end

/-- `findIframeById`: search by exact equality on the id attribute. -/
def findIframeById (id : String) (rootDocument : Doc) (maxDepth : Depth) :
    Option Iframe :=
  findIframeRecursive (fun iframe => iframe.data.id == id) rootDocument 0 maxDepth

/-- `findIframeByName`: search by exact equality on the name attribute. -/
def findIframeByName (nm : String) (rootDocument : Doc) (maxDepth : Depth) :
    Option Iframe :=
  findIframeRecursive (fun iframe => iframe.data.name == nm) rootDocument 0 maxDepth

/-- `findIframe`: search with a caller-supplied predicate. -/
def findIframe (predicate : Iframe → Bool) (rootDocument : Doc)
    (maxDepth : Depth) : Option Iframe :=
  findIframeRecursive predicate rootDocument 0 maxDepth

/-- `findAllIframes`: non-recursive, single level: filter the root
document's direct iframes by the predicate. -/
def findAllIframes (predicate : Iframe → Bool) (rootDocument : Doc) :
    List Iframe :=
  rootDocument.iframes.filter predicate

mutual

/-- `findElementRecursive` from src/index.ts: depth guard, then
`querySelector` on the current document, then recurse into each accessible
nested iframe document in order. -/
def findElementRecursive (sel : String) (doc : Doc) (currentDepth : Nat)
    (maxDepth : Depth) : Option Elem :=
  if depthExceeds currentDepth maxDepth then none
  else
    match doc with
    | .mk elems iframes =>
      match elems.find? (elemMatches sel) with
      | some element => some element
      | none => findElementLoop sel iframes currentDepth maxDepth

/-- The iframe loop of `findElementRecursive`: skip inaccessible content,
recurse with depth + 1, return the first non-null recursive result. -/
def findElementLoop (sel : String) (l : List Iframe) (currentDepth : Nat)
    (maxDepth : Depth) : Option Elem :=
  match l with
  | [] => none
  | .mk _ (.accessible contentDoc) :: rest =>
    match findElementRecursive sel contentDoc (currentDepth + 1) maxDepth with
    | some found => some found
    | none => findElementLoop sel rest currentDepth maxDepth
  | .mk _ .absent :: rest => findElementLoop sel rest currentDepth maxDepth
  | .mk _ .crossOrigin :: rest => findElementLoop sel rest currentDepth maxDepth

end

/-- `findElement`: first element matching the selector across documents. -/
def findElement (sel : String) (rootDocument : Doc) (maxDepth : Depth) :
    Option Elem :=
  findElementRecursive sel rootDocument 0 maxDepth

mutual

/-- `findAllElementsRecursive` from src/index.ts, with the mutated
`results` array made an explicit accumulator: depth guard (returning the
accumulator unchanged), append the current document's matches, then recurse
into each accessible nested document in order, threading the accumulator. -/
def findAllElementsRecursive (sel : String) (doc : Doc) (currentDepth : Nat)
    (maxDepth : Depth) (results : List Elem) : List Elem :=
  if depthExceeds currentDepth maxDepth then results
  else
    match doc with
    | .mk elems iframes =>
      allElementsLoop sel iframes currentDepth maxDepth
        (results ++ elems.filter (elemMatches sel))

/-- The iframe loop of `findAllElementsRecursive`: skip inaccessible
content, recurse with depth + 1 threading the accumulator; no
short-circuiting. -/
def allElementsLoop (sel : String) (l : List Iframe) (currentDepth : Nat)
    (maxDepth : Depth) (results : List Elem) : List Elem :=
  match l with
  | [] => results
  | .mk _ (.accessible contentDoc) :: rest =>
    allElementsLoop sel rest currentDepth maxDepth
      (findAllElementsRecursive sel contentDoc (currentDepth + 1) maxDepth results)
  | .mk _ .absent :: rest => allElementsLoop sel rest currentDepth maxDepth results
  | .mk _ .crossOrigin :: rest => allElementsLoop sel rest currentDepth maxDepth results

end

/-- `findAllElements`: all elements matching the selector, collected into
an initially empty results array. -/
def findAllElements (sel : String) (rootDocument : Doc) (maxDepth : Depth) :
    List Elem :=
  findAllElementsRecursive sel rootDocument 0 maxDepth []

/-! ## Helper lemmas -/

theorem firstPassLoop_eq_find? (p : Iframe → Bool) (l : List Iframe) :
    firstPassLoop p l = l.find? p := by
  induction l with
  | nil => rfl
  | cons f rest ih =>
    simp only [firstPassLoop, List.find?]
    cases hp : p f <;> simp [hp, ih]

mutual

theorem findAllElementsRecursive_acc (sel : String) (doc : Doc) (cur : Nat)
    (md : Depth) (acc : List Elem) :
    findAllElementsRecursive sel doc cur md acc
      = acc ++ findAllElementsRecursive sel doc cur md [] := by
  cases doc with
  | mk elems iframes =>
    by_cases h : depthExceeds cur md
    · simp [findAllElementsRecursive, h]
    · simp only [findAllElementsRecursive, h, if_false, Bool.false_eq_true]
      rw [List.nil_append,
          allElementsLoop_acc sel iframes cur md (acc ++ List.filter (elemMatches sel) elems),
          allElementsLoop_acc sel iframes cur md (List.filter (elemMatches sel) elems)]
      simp

theorem allElementsLoop_acc (sel : String) (l : List Iframe) (cur : Nat)
    (md : Depth) (acc : List Elem) :
    allElementsLoop sel l cur md acc = acc ++ allElementsLoop sel l cur md [] := by
  match l with
  | [] => simp [allElementsLoop]
  | .mk d (.accessible contentDoc) :: rest =>
    simp only [allElementsLoop]
    rw [allElementsLoop_acc sel rest cur md
          (findAllElementsRecursive sel contentDoc (cur + 1) md acc),
        allElementsLoop_acc sel rest cur md
          (findAllElementsRecursive sel contentDoc (cur + 1) md []),
        findAllElementsRecursive_acc sel contentDoc (cur + 1) md acc]
    simp
  | .mk d .absent :: rest =>
    simp only [allElementsLoop]
    exact allElementsLoop_acc sel rest cur md acc
  | .mk d .crossOrigin :: rest =>
    simp only [allElementsLoop]
    exact allElementsLoop_acc sel rest cur md acc

end

theorem secondPassLoop_eq_findSome? (p : Iframe → Bool) (l : List Iframe)
    (cur : Nat) (md : Depth) :
    secondPassLoop p l cur md
      = l.findSome? (fun f => (descend f).bind
          (fun d => findIframeRecursive p d (cur + 1) md)) := by
  induction l with
  | nil => rfl
  | cons f rest ih =>
    match f with
    | .mk dat (.accessible contentDoc) =>
      have hg : (descend (Iframe.mk dat (Content.accessible contentDoc))).bind
          (fun d => findIframeRecursive p d (cur + 1) md)
          = findIframeRecursive p contentDoc (cur + 1) md := rfl
      simp only [secondPassLoop, List.findSome?_cons, hg]
      cases h : findIframeRecursive p contentDoc (cur + 1) md <;> simp [h, ih]
    | .mk dat .absent =>
      have hg : (descend (Iframe.mk dat Content.absent)).bind
          (fun d => findIframeRecursive p d (cur + 1) md) = none := rfl
      simp only [secondPassLoop, List.findSome?_cons, hg]
      exact ih
    | .mk dat .crossOrigin =>
      have hg : (descend (Iframe.mk dat Content.crossOrigin)).bind
          (fun d => findIframeRecursive p d (cur + 1) md) = none := rfl
      simp only [secondPassLoop, List.findSome?_cons, hg]
      exact ih

theorem findElementLoop_eq_findSome? (sel : String) (l : List Iframe)
    (cur : Nat) (md : Depth) :
    findElementLoop sel l cur md
      = l.findSome? (fun f => (descend f).bind
          (fun d => findElementRecursive sel d (cur + 1) md)) := by
  induction l with
  | nil => rfl
  | cons f rest ih =>
    match f with
    | .mk dat (.accessible contentDoc) =>
      have hg : (descend (Iframe.mk dat (Content.accessible contentDoc))).bind
          (fun d => findElementRecursive sel d (cur + 1) md)
          = findElementRecursive sel contentDoc (cur + 1) md := rfl
      simp only [findElementLoop, List.findSome?_cons, hg]
      cases h : findElementRecursive sel contentDoc (cur + 1) md <;> simp [h, ih]
    | .mk dat .absent =>
      have hg : (descend (Iframe.mk dat Content.absent)).bind
          (fun d => findElementRecursive sel d (cur + 1) md) = none := rfl
      simp only [findElementLoop, List.findSome?_cons, hg]
      exact ih
    | .mk dat .crossOrigin =>
      have hg : (descend (Iframe.mk dat Content.crossOrigin)).bind
          (fun d => findElementRecursive sel d (cur + 1) md) = none := rfl
      simp only [findElementLoop, List.findSome?_cons, hg]
      exact ih

theorem allElementsLoop_eq_flatMap (sel : String) (l : List Iframe)
    (cur : Nat) (md : Depth) :
    allElementsLoop sel l cur md []
      = l.flatMap (fun f =>
          match descend f with
          | some d => findAllElementsRecursive sel d (cur + 1) md []
          | none => []) := by
  induction l with
  | nil => rfl
  | cons f rest ih =>
    match f with
    | .mk dat (.accessible contentDoc) =>
      have hg : (match descend (Iframe.mk dat (Content.accessible contentDoc)) with
          | some d => findAllElementsRecursive sel d (cur + 1) md []
          | none => ([] : List Elem))
          = findAllElementsRecursive sel contentDoc (cur + 1) md [] := rfl
      simp only [allElementsLoop, List.flatMap_cons, hg]
      rw [allElementsLoop_acc sel rest cur md
            (findAllElementsRecursive sel contentDoc (cur + 1) md []), ih]
    | .mk dat .absent =>
      have hg : (match descend (Iframe.mk dat Content.absent) with
          | some d => findAllElementsRecursive sel d (cur + 1) md []
          | none => ([] : List Elem)) = [] := rfl
      simp only [allElementsLoop, List.flatMap_cons, hg, List.nil_append]
      exact ih
    | .mk dat .crossOrigin =>
      have hg : (match descend (Iframe.mk dat Content.crossOrigin) with
          | some d => findAllElementsRecursive sel d (cur + 1) md []
          | none => ([] : List Elem)) = [] := rfl
      simp only [allElementsLoop, List.flatMap_cons, hg, List.nil_append]
      exact ih

theorem find?_eq_head?_filter {α : Type} (p : α → Bool) (l : List α) :
    l.find? p = (l.filter p).head? := by
  induction l with
  | nil => rfl
  | cons a as ih =>
    by_cases hp : p a
    · simp [List.find?_cons, List.filter_cons, hp]
    · simp only [List.find?_cons, List.filter_cons, hp, Bool.false_eq_true, if_false, ih]

theorem findSome?_of_none {α β : Type} {g : α → Option β} (l : List α)
    (h : ∀ a, g a = none) : l.findSome? g = none := by
  induction l with
  | nil => rfl
  | cons a as ih => rw [List.findSome?_cons, h a, ih]

theorem findSome?_ext {α β : Type} {g h : α → Option β} (l : List α)
    (hw : ∀ a, g a = h a) : l.findSome? g = l.findSome? h := by
  have : g = h := funext hw
  rw [this]

/-- When the next level is past the bound, the recursive iframe search
reduces to pass 1 on the current document. -/
theorem findIframeRecursive_last_level (p : Iframe → Bool) (d : Doc)
    (cur : Nat) (md : Depth) (h1 : depthExceeds cur md = false)
    (h2 : depthExceeds (cur + 1) md = true) :
    findIframeRecursive p d cur md = d.iframes.find? p := by
  cases d with
  | mk es ifs =>
    simp only [findIframeRecursive, h1, Bool.false_eq_true, if_false,
      firstPassLoop_eq_find?, Doc.iframes]
    cases hf : ifs.find? p with
    | some f => rfl
    | none =>
      rw [secondPassLoop_eq_findSome?]
      refine findSome?_of_none ifs (fun f => ?_)
      cases hd : descend f with
      | none => rfl
      | some d' =>
        simp only [hd, Option.some_bind]
        cases d' with
        | mk es' ifs' => simp [findIframeRecursive, h2]

/-- When the next level is past the bound, the all-elements loop leaves the
accumulator untouched. -/
theorem allElementsLoop_of_exceeds (sel : String) (l : List Iframe)
    (cur : Nat) (md : Depth) (acc : List Elem)
    (h : depthExceeds (cur + 1) md = true) :
    allElementsLoop sel l cur md acc = acc := by
  induction l with
  | nil => rfl
  | cons f rest ih =>
    match f with
    | .mk dat (.accessible contentDoc) =>
      simp only [allElementsLoop]
      cases contentDoc with
      | mk es' ifs' =>
        rw [show findAllElementsRecursive sel (.mk es' ifs') (cur + 1) md acc = acc by
          simp [findAllElementsRecursive, h]]
        exact ih
    | .mk dat .absent => simpa only [allElementsLoop] using ih
    | .mk dat .crossOrigin => simpa only [allElementsLoop] using ih

/-- C1: at each document the first-match traversal is two passes: pass 1
returns the first direct iframe satisfying the predicate (document order,
short-circuiting); pass 2 runs only if pass 1 found nothing, recurses into
each accessible nested document in document order with depth + 1, and
propagates the first non-absent recursive result. -/
theorem findIframeRecursive_two_pass (p : Iframe → Bool) (es : List Elem)
    (ifs : List Iframe) (cur : Nat) (md : Depth) :
    findIframeRecursive p (.mk es ifs) cur md
      = if depthExceeds cur md then none
        else
          match ifs.find? p with
          | some f => some f
          | none => ifs.findSome? (fun f => (descend f).bind
              (fun d => findIframeRecursive p d (cur + 1) md)) := by
  by_cases h : depthExceeds cur md
  · simp [findIframeRecursive, h]
  · simp only [findIframeRecursive, h, Bool.false_eq_true, if_false,
      firstPassLoop_eq_find?]
    cases hf : ifs.find? p with
    | some f => rfl
    | none => rw [secondPassLoop_eq_findSome?]

/-- C2: the depth guard is strict excess: with `maxDepth = 0` the root
document itself is still searched (pass 1 over its direct iframes) but no
nested document is entered; with `maxDepth = 1` matches exactly one nested
level down are additionally reachable and none deeper; analogously
`findElement` with `maxDepth = 0` is the root-only selector query. -/
theorem maxDepth_boundary (p : Iframe → Bool) (sel : String) (es : List Elem)
    (ifs : List Iframe) :
    findIframe p (.mk es ifs) (.finite 0) = ifs.find? p
    ∧ findIframe p (.mk es ifs) (.finite 1)
        = (match ifs.find? p with
           | some f => some f
           | none => ifs.findSome? (fun f => (descend f).bind
               (fun d => d.iframes.find? p)))
    ∧ findElement sel (.mk es ifs) (.finite 0) = querySelector (.mk es ifs) sel := by
  refine ⟨?_, ?_, ?_⟩
  · rw [show findIframe p (.mk es ifs) (.finite 0)
        = findIframeRecursive p (.mk es ifs) 0 (.finite 0) from rfl,
      findIframeRecursive_last_level p (.mk es ifs) 0 (.finite 0) (by decide) (by decide)]
    rfl
  · rw [show findIframe p (.mk es ifs) (.finite 1)
        = findIframeRecursive p (.mk es ifs) 0 (.finite 1) from rfl]
    simp only [findIframeRecursive, depthExceeds, firstPassLoop_eq_find?]
    norm_num
    cases hf : ifs.find? p with
    | some f => rfl
    | none =>
      rw [secondPassLoop_eq_findSome?]
      refine findSome?_ext ifs (fun f => ?_)
      cases hd : descend f with
      | none => rfl
      | some d' =>
        simp only [Option.some_bind]
        rw [findIframeRecursive_last_level p d' (0 + 1) (.finite 1) (by decide) (by decide)]
  · simp only [findElement, findElementRecursive, depthExceeds, querySelector, Doc.elems]
    norm_num
    cases hf : es.find? (elemMatches sel) with
    | some e => rfl
    | none =>
      rw [findElementLoop_eq_findSome?]
      refine findSome?_of_none ifs (fun f => ?_)
      cases hd : descend f with
      | none => rfl
      | some d' =>
        simp only [Option.some_bind]
        cases d' with
        | mk es' ifs' => simp [findElementRecursive, depthExceeds]

/-- C5: `findAllIframes` never descends: it is exactly the predicate filter
of the root document's direct iframes, in document order, and every
returned iframe is a direct iframe of the root satisfying the predicate. -/
theorem findAllIframes_single_level (p : Iframe → Bool) (es : List Elem)
    (ifs : List Iframe) (f : Iframe) :
    findAllIframes p (.mk es ifs) = ifs.filter p
    ∧ (f ∈ findAllIframes p (.mk es ifs) ↔ f ∈ ifs ∧ p f = true) := by
  constructor
  · rfl
  · show f ∈ ifs.filter p ↔ f ∈ ifs ∧ p f = true
    exact List.mem_filter

/-- C7: with `maxDepth = 0`, `findAllElements` is exactly the plain
single-document selector query on the root, in the same order. -/
theorem findAllElements_depth0 (sel : String) (root : Doc) :
    findAllElements sel root (.finite 0) = querySelectorAll root sel := by
  cases root with
  | mk es ifs =>
    simp only [findAllElements, findAllElementsRecursive, depthExceeds,
      querySelectorAll, Doc.elems]
    norm_num
    rw [allElementsLoop_of_exceeds sel ifs 0 (.finite 0) _ (by decide)]

/-- C8: `findIframeById` and `findIframeByName` are `findIframe` with the
exact-equality predicate on the id attribute and the name attribute
respectively, with the same root and depth option. -/
theorem findIframeById_byName_specialize (id nm : String) (root : Doc)
    (md : Depth) :
    findIframeById id root md
      = findIframe (fun iframe => iframe.data.id == id) root md
    ∧ findIframeByName nm root md
      = findIframe (fun iframe => iframe.data.name == nm) root md :=
  ⟨rfl, rfl⟩

/-- C10: a negative `maxDepth` makes depth 0 already exceed the bound, so
every recursive operation returns its empty result on any root document. -/
theorem negative_maxDepth_empty (p : Iframe → Bool) (sel id nm : String)
    (root : Doc) (d : Int) (h : d < 0) :
    findIframe p root (.finite d) = none
    ∧ findIframeById id root (.finite d) = none
    ∧ findIframeByName nm root (.finite d) = none
    ∧ findElement sel root (.finite d) = none
    ∧ findAllElements sel root (.finite d) = [] := by
  have hex : depthExceeds 0 (.finite d) = true := by
    simp only [depthExceeds, Nat.cast_zero, decide_eq_true_eq]
    omega
  cases root with
  | mk es ifs =>
    refine ⟨?_, ?_, ?_, ?_, ?_⟩
    · simp [findIframe, findIframeRecursive, hex]
    · simp [findIframeById, findIframeRecursive, hex]
    · simp [findIframeByName, findIframeRecursive, hex]
    · simp [findElement, findElementRecursive, hex]
    · simp [findAllElements, findAllElementsRecursive, hex]

/-- Witness for `negative_maxDepth_empty` at `maxDepth = -1` on a root with
one iframe and one element. -/
theorem negative_maxDepth_empty_witness :
    findIframe (fun _ => true) (.mk [.mk "div" ["s"]] [.mk ⟨"i", "n"⟩ .absent])
        (.finite (-1)) = none
    ∧ findIframeById "i" (.mk [.mk "div" ["s"]] [.mk ⟨"i", "n"⟩ .absent])
        (.finite (-1)) = none
    ∧ findIframeByName "n" (.mk [.mk "div" ["s"]] [.mk ⟨"i", "n"⟩ .absent])
        (.finite (-1)) = none
    ∧ findElement "s" (.mk [.mk "div" ["s"]] [.mk ⟨"i", "n"⟩ .absent])
        (.finite (-1)) = none
    ∧ findAllElements "s" (.mk [.mk "div" ["s"]] [.mk ⟨"i", "n"⟩ .absent])
        (.finite (-1)) = [] :=
  negative_maxDepth_empty (fun _ => true) "s" "i" "n"
    (.mk [.mk "div" ["s"]] [.mk ⟨"i", "n"⟩ .absent]) (-1) (by norm_num)

theorem firstPassLoop_skip (p : Iframe → Bool) (l₁ l₂ : List Iframe)
    (f : Iframe) (hp : p f = false) :
    firstPassLoop p (l₁ ++ f :: l₂) = firstPassLoop p (l₁ ++ l₂) := by
  induction l₁ with
  | nil => simp [firstPassLoop, hp]
  | cons g rest ih =>
    simp only [List.cons_append, firstPassLoop, List.append_eq]
    rw [ih]

theorem secondPassLoop_skip (p : Iframe → Bool) (l₁ l₂ : List Iframe)
    (f : Iframe) (cur : Nat) (md : Depth) (hf : descend f = none) :
    secondPassLoop p (l₁ ++ f :: l₂) cur md
      = secondPassLoop p (l₁ ++ l₂) cur md := by
  induction l₁ with
  | nil =>
    match f, hf with
    | .mk dat .absent, _ => simp [secondPassLoop]
    | .mk dat .crossOrigin, _ => simp [secondPassLoop]
  | cons g rest ih =>
    match g with
    | .mk dat (.accessible contentDoc) =>
      simp only [List.cons_append, secondPassLoop, List.append_eq]
      rw [ih]
    | .mk dat .absent => simpa only [List.cons_append, secondPassLoop] using ih
    | .mk dat .crossOrigin => simpa only [List.cons_append, secondPassLoop] using ih

theorem findElementLoop_skip (sel : String) (l₁ l₂ : List Iframe)
    (f : Iframe) (cur : Nat) (md : Depth) (hf : descend f = none) :
    findElementLoop sel (l₁ ++ f :: l₂) cur md
      = findElementLoop sel (l₁ ++ l₂) cur md := by
  induction l₁ with
  | nil =>
    match f, hf with
    | .mk dat .absent, _ => simp [findElementLoop]
    | .mk dat .crossOrigin, _ => simp [findElementLoop]
  | cons g rest ih =>
    match g with
    | .mk dat (.accessible contentDoc) =>
      simp only [List.cons_append, findElementLoop, List.append_eq]
      rw [ih]
    | .mk dat .absent => simpa only [List.cons_append, findElementLoop] using ih
    | .mk dat .crossOrigin => simpa only [List.cons_append, findElementLoop] using ih

theorem allElementsLoop_skip (sel : String) (l₁ l₂ : List Iframe)
    (f : Iframe) (cur : Nat) (md : Depth) (acc : List Elem)
    (hf : descend f = none) :
    allElementsLoop sel (l₁ ++ f :: l₂) cur md acc
      = allElementsLoop sel (l₁ ++ l₂) cur md acc := by
  induction l₁ generalizing acc with
  | nil =>
    match f, hf with
    | .mk dat .absent, _ => simp [allElementsLoop]
    | .mk dat .crossOrigin, _ => simp [allElementsLoop]
  | cons g rest ih =>
    match g with
    | .mk dat (.accessible contentDoc) =>
      simp only [List.cons_append, allElementsLoop, List.append_eq]
      rw [ih]
    | .mk dat .absent => simpa only [List.cons_append, allElementsLoop] using ih _
    | .mk dat .crossOrigin => simpa only [List.cons_append, allElementsLoop] using ih _

/-- C4: an iframe whose nested document is inaccessible — absent (null /
not yet loaded) or cross-origin (access throws, caught) — is skipped as a
branch by every search operation: removing it from the document leaves
every result unchanged (for the first-match iframe searches, provided the
iframe itself does not satisfy the predicate), so it contributes nothing,
no failure reaches the caller, and siblings and other branches are still
searched. -/
theorem inaccessible_branch_isolated (p : Iframe → Bool) (sel id nm : String)
    (es : List Elem) (l₁ l₂ : List Iframe) (f : Iframe) (cur : Nat)
    (md : Depth) (hf : descend f = none) :
    (p f = false →
      findIframeRecursive p (.mk es (l₁ ++ f :: l₂)) cur md
        = findIframeRecursive p (.mk es (l₁ ++ l₂)) cur md)
    ∧ ((f.data.id == id) = false →
      findIframeById id (.mk es (l₁ ++ f :: l₂)) md
        = findIframeById id (.mk es (l₁ ++ l₂)) md)
    ∧ ((f.data.name == nm) = false →
      findIframeByName nm (.mk es (l₁ ++ f :: l₂)) md
        = findIframeByName nm (.mk es (l₁ ++ l₂)) md)
    ∧ findElement sel (.mk es (l₁ ++ f :: l₂)) md
        = findElement sel (.mk es (l₁ ++ l₂)) md
    ∧ findAllElements sel (.mk es (l₁ ++ f :: l₂)) md
        = findAllElements sel (.mk es (l₁ ++ l₂)) md := by
  have hrec : ∀ (q : Iframe → Bool) (c : Nat), q f = false →
      findIframeRecursive q (.mk es (l₁ ++ f :: l₂)) c md
        = findIframeRecursive q (.mk es (l₁ ++ l₂)) c md := by
    intro q c hq
    by_cases h : depthExceeds c md
    · simp [findIframeRecursive, h]
    · simp only [findIframeRecursive, h, Bool.false_eq_true, if_false]
      rw [firstPassLoop_skip q l₁ l₂ f hq, secondPassLoop_skip q l₁ l₂ f c md hf]
  refine ⟨hrec p cur, ?_, ?_, ?_, ?_⟩
  · show (f.data.id == id) = false →
      findIframeRecursive (fun iframe => iframe.data.id == id)
          (.mk es (l₁ ++ f :: l₂)) 0 md
        = findIframeRecursive (fun iframe => iframe.data.id == id)
          (.mk es (l₁ ++ l₂)) 0 md
    exact hrec (fun iframe => iframe.data.id == id) 0
  · show (f.data.name == nm) = false →
      findIframeRecursive (fun iframe => iframe.data.name == nm)
          (.mk es (l₁ ++ f :: l₂)) 0 md
        = findIframeRecursive (fun iframe => iframe.data.name == nm)
          (.mk es (l₁ ++ l₂)) 0 md
    exact hrec (fun iframe => iframe.data.name == nm) 0
  · show findElementRecursive sel (.mk es (l₁ ++ f :: l₂)) 0 md
      = findElementRecursive sel (.mk es (l₁ ++ l₂)) 0 md
    by_cases h : depthExceeds 0 md
    · simp [findElementRecursive, h]
    · simp only [findElementRecursive, h, Bool.false_eq_true, if_false]
      rw [findElementLoop_skip sel l₁ l₂ f 0 md hf]
  · show findAllElementsRecursive sel (.mk es (l₁ ++ f :: l₂)) 0 md []
      = findAllElementsRecursive sel (.mk es (l₁ ++ l₂)) 0 md []
    by_cases h : depthExceeds 0 md
    · simp [findAllElementsRecursive, h]
    · simp only [findAllElementsRecursive, h, Bool.false_eq_true, if_false]
      rw [allElementsLoop_skip sel l₁ l₂ f 0 md _ hf]

/-- Witness for `inaccessible_branch_isolated`: a cross-origin iframe ahead
of its siblings changes no result. -/
theorem inaccessible_branch_isolated_witness :
    findIframeRecursive (fun f => f.data.id == "b")
        (.mk [.mk "div" ["s"]] [.mk ⟨"x", ""⟩ .crossOrigin, .mk ⟨"b", ""⟩ .absent])
        0 .infinity
      = findIframeRecursive (fun f => f.data.id == "b")
        (.mk [.mk "div" ["s"]] [.mk ⟨"b", ""⟩ .absent]) 0 .infinity
    ∧ findElement "s"
        (.mk [.mk "div" ["s"]] [.mk ⟨"x", ""⟩ .crossOrigin, .mk ⟨"b", ""⟩ .absent])
        .infinity
      = findElement "s" (.mk [.mk "div" ["s"]] [.mk ⟨"b", ""⟩ .absent]) .infinity
    ∧ findAllElements "s"
        (.mk [.mk "div" ["s"]] [.mk ⟨"x", ""⟩ .crossOrigin, .mk ⟨"b", ""⟩ .absent])
        .infinity
      = findAllElements "s" (.mk [.mk "div" ["s"]] [.mk ⟨"b", ""⟩ .absent])
        .infinity :=
  ⟨(inaccessible_branch_isolated (fun f => f.data.id == "b") "s" "b" "b"
      [.mk "div" ["s"]] [] [.mk ⟨"b", ""⟩ .absent] (.mk ⟨"x", ""⟩ .crossOrigin)
      0 .infinity rfl).1 (by rfl),
   (inaccessible_branch_isolated (fun f => f.data.id == "b") "s" "b" "b"
      [.mk "div" ["s"]] [] [.mk ⟨"b", ""⟩ .absent] (.mk ⟨"x", ""⟩ .crossOrigin)
      0 .infinity rfl).2.2.2.1,
   (inaccessible_branch_isolated (fun f => f.data.id == "b") "s" "b" "b"
      [.mk "div" ["s"]] [] [.mk ⟨"b", ""⟩ .absent] (.mk ⟨"x", ""⟩ .crossOrigin)
      0 .infinity rfl).2.2.2.2⟩

/-- C6: `findAllElementsRecursive` appends, with no short-circuiting, the
current document's matches in document order and then, for each accessible
nested document in iframe document order, that subtree's matches — the
result is the pre-order concatenation of per-document match sets. -/
theorem findAllElements_preorder (sel : String) (es : List Elem)
    (ifs : List Iframe) (cur : Nat) (md : Depth) (acc : List Elem) :
    findAllElementsRecursive sel (.mk es ifs) cur md acc
      = if depthExceeds cur md then acc
        else acc ++ es.filter (elemMatches sel)
          ++ ifs.flatMap (fun f =>
              match descend f with
              | some d => findAllElementsRecursive sel d (cur + 1) md []
              | none => []) := by
  by_cases h : depthExceeds cur md
  · simp [findAllElementsRecursive, h]
  · simp only [findAllElementsRecursive, h, Bool.false_eq_true, if_false]
    rw [allElementsLoop_acc sel ifs cur md (acc ++ es.filter (elemMatches sel)),
      allElementsLoop_eq_flatMap, List.append_assoc]

mutual

theorem findElementRecursive_eq_head (sel : String) (doc : Doc) (cur : Nat)
    (md : Depth) :
    findElementRecursive sel doc cur md
      = (findAllElementsRecursive sel doc cur md []).head? := by
  cases doc with
  | mk es ifs =>
    by_cases h : depthExceeds cur md
    · simp [findElementRecursive, findAllElementsRecursive, h]
    · simp only [findElementRecursive, findAllElementsRecursive, h,
        Bool.false_eq_true, if_false, List.nil_append]
      rw [allElementsLoop_acc sel ifs cur md (es.filter (elemMatches sel)),
        List.head?_append]
      cases hfind : es.find? (elemMatches sel) with
      | some e =>
        rw [find?_eq_head?_filter] at hfind
        simp [hfind]
      | none =>
        rw [find?_eq_head?_filter] at hfind
        simp only [hfind, Option.none_or]
        exact findElementLoop_eq_head sel ifs cur md

theorem findElementLoop_eq_head (sel : String) (l : List Iframe) (cur : Nat)
    (md : Depth) :
    findElementLoop sel l cur md = (allElementsLoop sel l cur md []).head? := by
  match l with
  | [] => rfl
  | .mk dat (.accessible contentDoc) :: rest =>
    simp only [findElementLoop, allElementsLoop]
    rw [allElementsLoop_acc sel rest cur md
        (findAllElementsRecursive sel contentDoc (cur + 1) md []),
      List.head?_append]
    have hrec := findElementRecursive_eq_head sel contentDoc (cur + 1) md
    cases hd : findElementRecursive sel contentDoc (cur + 1) md with
    | some e =>
      rw [hd] at hrec
      simp [← hrec]
    | none =>
      rw [hd] at hrec
      simp only [← hrec, Option.none_or]
      exact findElementLoop_eq_head sel rest cur md
  | .mk dat .absent :: rest =>
    simp only [findElementLoop, allElementsLoop]
    exact findElementLoop_eq_head sel rest cur md
  | .mk dat .crossOrigin :: rest =>
    simp only [findElementLoop, allElementsLoop]
    exact findElementLoop_eq_head sel rest cur md

end

/-- C9: the single-result selector search is the head of the all-results
pre-order traversal: `findElement` returns the first element of
`findAllElements` with the same selector, root and depth bound, and `none`
exactly when that list is empty. -/
theorem findElement_head_of_findAllElements (sel : String) (root : Doc)
    (md : Depth) :
    findElement sel root md = (findAllElements sel root md).head?
    ∧ (findElement sel root md = none ↔ findAllElements sel root md = []) := by
  have h := findElementRecursive_eq_head sel root 0 md
  refine ⟨h, ?_⟩
  rw [show findElement sel root md = findElementRecursive sel root 0 md from rfl, h]
  show (findAllElementsRecursive sel root 0 md []).head? = none
    ↔ findAllElements sel root md = []
  rw [show findAllElements sel root md
      = findAllElementsRecursive sel root 0 md [] from rfl]
  exact List.head?_eq_none_iff

mutual

/-- The first iframe, in traversal order, matching the predicate at exactly
depth `k` below the given document through accessible nested documents
(the glossary's depth notion: the starting document is depth 0). -/
def firstMatchAt (predicate : Iframe → Bool) (doc : Doc) (k : Nat) :
    Option Iframe :=
  match doc, k with
  | .mk _ iframes, 0 => firstPassLoop predicate iframes
  | .mk _ iframes, k + 1 => firstMatchAtLoop predicate iframes k

/-- Helper for `firstMatchAt`: scan the iframe list, descending one level. -/
def firstMatchAtLoop (predicate : Iframe → Bool) (l : List Iframe) (k : Nat) :
    Option Iframe :=
  match l with
  | [] => none
  | .mk _ (.accessible contentDoc) :: rest =>
    match firstMatchAt predicate contentDoc k with
    | some found => some found
    | none => firstMatchAtLoop predicate rest k
  | .mk _ .absent :: rest => firstMatchAtLoop predicate rest k
  | .mk _ .crossOrigin :: rest => firstMatchAtLoop predicate rest k

end

/-- The match at depth 2 in the earlier sibling subtree, C3's tree. -/
def cx3deep : Iframe := .mk ⟨"deep", "t"⟩ .absent

/-- The match at depth 1 in the later sibling subtree, C3's tree. -/
def cx3shallow : Iframe := .mk ⟨"shallow", "t"⟩ .absent

/-- C3's root: iframe `a` leads (via an intermediate non-matching iframe)
to a depth-2 match; its later sibling `b` holds a depth-1 match. -/
def cx3root : Doc :=
  .mk []
    [.mk ⟨"a", ""⟩ (.accessible (.mk [] [.mk ⟨"x", ""⟩ (.accessible (.mk [] [cx3deep]))])),
     .mk ⟨"b", ""⟩ (.accessible (.mk [] [cx3shallow]))]

/-- C3's predicate: match on the name attribute value `t`. -/
def cx3p : Iframe → Bool := fun f => f.data.name == "t"

/-- Counterexample to C3: in `cx3root`, no iframe matches at depth 0, the
first (and only) match at depth 1 is `cx3shallow`, yet `findIframe` returns
`cx3deep`, which sits at depth 2 in the sibling subtree explored first — so
the returned element is not at the minimal depth among matches within the
bound, and a shallower match does not win over a deeper one. -/
theorem shallow_priority_counterexample :
    findIframe cx3p cx3root .infinity = some cx3deep
    ∧ cx3p cx3shallow = true
    ∧ firstMatchAt cx3p cx3root 0 = none
    ∧ firstMatchAt cx3p cx3root 1 = some cx3shallow
    ∧ firstMatchAt cx3p cx3root 2 = some cx3deep
    ∧ cx3deep ≠ cx3shallow := by
  refine ⟨rfl, rfl, rfl, rfl, rfl, ?_⟩
  intro h
  simp only [cx3deep, cx3shallow, Iframe.mk.injEq, IframeData.mk.injEq] at h
  exact absurd h.1.1 (by decide)

/-- C3 amended: the depth preference is per document, not global: whenever
the depth bound is not exceeded and some iframe directly in the current
document satisfies the predicate, the traversal returns the first such
direct iframe in document order — preferring it to anything deeper in this
document's subtrees; across sibling subtrees depth-first order decides. -/
theorem local_level_priority (p : Iframe → Bool) (es : List Elem)
    (ifs : List Iframe) (cur : Nat) (md : Depth) (f : Iframe)
    (h1 : depthExceeds cur md = false) (h2 : ifs.find? p = some f) :
    findIframeRecursive p (.mk es ifs) cur md = some f := by
  simp only [findIframeRecursive, h1, Bool.false_eq_true, if_false,
    firstPassLoop_eq_find?, h2]

/-- Witness for `local_level_priority`: a direct match in a document is
returned even though an accessible nested document holds an earlier-tested
deeper match. -/
theorem local_level_priority_witness :
    depthExceeds 0 .infinity = false
    ∧ List.find? cx3p [.mk ⟨"c", "t"⟩ (.accessible (.mk [] [cx3deep]))]
        = some (.mk ⟨"c", "t"⟩ (.accessible (.mk [] [cx3deep])))
    ∧ findIframeRecursive cx3p
        (.mk [] [.mk ⟨"c", "t"⟩ (.accessible (.mk [] [cx3deep]))]) 0 .infinity
        = some (.mk ⟨"c", "t"⟩ (.accessible (.mk [] [cx3deep]))) :=
  ⟨rfl, rfl,
    local_level_priority cx3p []
      [.mk ⟨"c", "t"⟩ (.accessible (.mk [] [cx3deep]))] 0 .infinity
      (.mk ⟨"c", "t"⟩ (.accessible (.mk [] [cx3deep]))) rfl rfl⟩

end IframeFinder
